import Mathlib

/-!
Verification of the LightGUIAgent core: the grid coordinate system
(`grid_converter.py`), the decision-response validation and request
construction (`claude_client.py`) and the run loop (`agent.py`),
shallowly embedded from the Python sources.  Python strings are
modelled as `List Char` (wrapped in `String` at the API boundary),
Python floats as exact rationals (the spec defines cell sizes as
real-valued `W/C`, `H/R`), and Python `int()` truncation as `ratTrunc`.
-/

namespace LightGUI

/-! ### Python string primitives -/

/-- ASCII whitespace recognised by Python's `str.strip`. -/
def pyIsSpace (c : Char) : Bool :=
  c = ' ' || c = '\t' || c = '\n' || c = '\r' || c = '\x0b' || c = '\x0c'

/-- Python `str.strip`: drop leading and trailing whitespace. -/
def pyStrip (l : List Char) : List Char :=
  ((l.dropWhile pyIsSpace).reverse.dropWhile pyIsSpace).reverse

/-- Python `str.upper` (ASCII part). -/
def pyUpper (l : List Char) : List Char :=
  l.map Char.toUpper

mutual

/-- Digit-run parser used by `pyInt`: accepts digits with single
underscores between digits, as Python's `int()` does. -/
def pyDigitsAux : ℕ → List Char → Option ℕ
  | acc, [] => some acc
  | acc, c :: cs =>
    if c.isDigit then pyDigitsAux (10 * acc + (c.toNat - 48)) cs
    else if c = '_' then pyAfterUnderscore acc cs
    else none
termination_by _ l => l.length

/-- After an underscore a digit must follow immediately. -/
def pyAfterUnderscore : ℕ → List Char → Option ℕ
  | _, [] => none
  | acc, d :: cs =>
    if d.isDigit then pyDigitsAux (10 * acc + (d.toNat - 48)) cs else none
termination_by _ l => l.length

end

/-- Nonempty digit run, first char must be a digit. -/
def pyDigits : List Char → Option ℕ
  | [] => none
  | c :: cs => if c.isDigit then pyDigitsAux (c.toNat - 48) cs else none

/-- Python `int(s)`: strip whitespace, optional sign, then digits. -/
def pyInt (l : List Char) : Option ℤ :=
  match pyStrip l with
  | [] => none
  | c :: rest =>
    if c = '+' then
      match pyDigits rest with
      | some n => some ((n : ℤ))
      | none => none
    else if c = '-' then
      match pyDigits rest with
      | some n => some (-(n : ℤ))
      | none => none
    else
      match pyDigits (c :: rest) with
      | some n => some ((n : ℤ))
      | none => none

/-- Fuel-driven digit printer (structural recursion so that concrete
labels reduce inside the kernel). -/
def natReprAux : ℕ → ℕ → List Char
  | 0, _ => []
  | fuel + 1, n =>
    if n = 0 then []
    else natReprAux fuel (n / 10) ++ [Char.ofNat (48 + n % 10)]

/-- Decimal rendering of a natural number, as Python's `str(n)`. -/
def natRepr (n : ℕ) : List Char :=
  if n = 0 then ['0'] else natReprAux n n

/-- Python `int()` applied to a float: truncation toward zero. -/
def ratTrunc (q : ℚ) : ℤ :=
  if q < 0 then ⌈q⌉ else ⌊q⌋

/-! ### Grid converter (`grid_converter.py`) -/

/-- The grid configuration: column/row counts and screen size in pixels.
Cell sizes are the real-valued quotients `W/C` and `H/R`. -/
structure GridSpec where
  cols : ℕ
  rows : ℕ
  width : ℕ
  height : ℕ
deriving DecidableEq

def GridSpec.cellWidth (g : GridSpec) : ℚ := (g.width : ℚ) / (g.cols : ℚ)

def GridSpec.cellHeight (g : GridSpec) : ℚ := (g.height : ℚ) / (g.rows : ℚ)

/-- `self.col_letters = [chr(65 + i) for i in range(self.cols)]`. -/
def GridSpec.colLetters (g : GridSpec) : List Char :=
  (List.range g.cols).map (fun i => Char.ofNat (65 + i))

/-- The default configuration: 10×20 grid on a 1080×2400 screen. -/
def spec10 : GridSpec := ⟨10, 20, 1080, 2400⟩

/-- Errors raised by `GridConverter._single_grid_to_pixel` (each a
distinct `ValueError` message in the source). -/
inductive GridError
  | invalidFormat
  | invalidColumn
  | invalidRowFormat
  | invalidRowRange
deriving DecidableEq

/-- `GridConverter._single_grid_to_pixel`: strip/upper the label, split
into column letter and row digits, validate, and return the cell
center truncated to integer pixels.  `grid_to_pixel` strips and uppers
before delegating here, which is idempotent, so this is also the
embedding of `grid_to_pixel`. -/
def gridToPixel (g : GridSpec) (s : String) : Except GridError (ℤ × ℤ) :=
  match pyUpper (pyStrip s.data) with
  | [] => .error .invalidFormat
  | [_] => .error .invalidFormat
  | colLetter :: rowChars =>
    if colLetter ∈ g.colLetters then
      match pyInt rowChars with
      | none => .error .invalidRowFormat
      | some row =>
        if 1 ≤ row ∧ row ≤ (g.rows : ℤ) then
          let ci : ℚ := ((g.colLetters.indexOf colLetter : ℕ) : ℚ)
          .ok (ratTrunc ((ci + 1/2) * g.cellWidth),
               ratTrunc (((row : ℚ) - 1/2) * g.cellHeight))
        else .error .invalidRowRange
    else .error .invalidColumn

/-- `GridConverter.pixel_to_grid`: truncate `x / cell_width` and
`y / cell_height`, clamp into range, and print `f"{letter}{row}"`. -/
def pixelToGrid (g : GridSpec) (x y : ℤ) : String :=
  let ci := max 0 (min (ratTrunc ((x : ℚ) / g.cellWidth)) ((g.cols : ℤ) - 1))
  let ri := max 0 (min (ratTrunc ((y : ℚ) / g.cellHeight)) ((g.rows : ℤ) - 1))
  String.mk (g.colLetters.getD ci.toNat (Char.ofNat 0) :: natRepr (ri.toNat + 1))

/-- `GridConverter.get_cell_bounds`: strip/upper, take `s[0]` as the
column letter and `int(s[1:])` as the row, look the letter up in
`col_letters`, and return the cell rectangle.  `none` models the
uncaught exceptions (`IndexError` on the empty string, `ValueError`
from `int()` or from `list.index`); note the source performs no row
range check here. -/
def getCellBounds (g : GridSpec) (s : String) : Option (ℤ × ℤ × ℤ × ℤ) :=
  match pyUpper (pyStrip s.data) with
  | [] => none
  | colLetter :: rowChars =>
    match pyInt rowChars with
    | none => none
    | some row =>
      if colLetter ∈ g.colLetters then
        let ci : ℚ := ((g.colLetters.indexOf colLetter : ℕ) : ℚ)
        some (ratTrunc (ci * g.cellWidth),
              ratTrunc (((row : ℚ) - 1) * g.cellHeight),
              ratTrunc ((ci + 1) * g.cellWidth),
              ratTrunc ((row : ℚ) * g.cellHeight))
      else none

/-- The canonical string form of the grid label with 0-based column
index `c` and 1-based row `r` (e.g. `labelStr 4 5 = "E5"`). -/
def labelStr (c r : ℕ) : String :=
  String.mk (Char.ofNat (65 + c) :: natRepr r)

/-! ### Decision protocol (`claude_client.py`) -/

/-- A decision-response dictionary (the parsed JSON object), with the
fields the validation and request construction touch; `none` models an
absent key.  History entries are the same dictionaries, extended with
the optional `marked_screenshot_b64` key added by the agent. -/
structure ActionDict where
  action : Option String := none
  grid : Option String := none
  value : Option String := none
  explain : Option String := none
  summary : Option String := none
  markedScreenshotB64 : Option String := none
deriving DecidableEq

/-- `ACTION_TYPES` from `config.py`. -/
def actionTypes : List String := ["CLICK", "TYPE", "SCROLL", "AWAKE", "COMPLETE"]

/-- The distinct `ValueError` raise sites of `ClaudeClient._parse_response`. -/
inductive RespError
  | malformedResponse
  | missingActionField
  | unknownActionType
  | missingGrid
  | missingValue
  | invalidScrollDirection
deriving DecidableEq

/-- `ClaudeClient._parse_response`, from the point where the raw text
either parsed as a JSON object (`some a`) or failed to parse (`none`). -/
def parseResponse (raw : Option ActionDict) : Except RespError ActionDict :=
  match raw with
  | none => .error .malformedResponse
  | some a =>
    match a.action with
    | none => .error .missingActionField
    | some t =>
      if t ∉ actionTypes then .error .unknownActionType
      else if t = "CLICK" then
        if a.grid = none then .error .missingGrid else .ok a
      else if t = "TYPE" ∨ t = "SCROLL" ∨ t = "AWAKE" then
        if a.value = none then .error .missingValue
        else if t = "SCROLL" ∧ a.value ≠ some "up" ∧ a.value ≠ some "down" then
          .error .invalidScrollDirection
        else .ok a
      else .ok a

/-! ### Request construction (`ClaudeClient.get_action` and
`ClaudeClient._build_user_message`) -/

/-- Python `history[-n:]`. -/
def takeLast (l : List ActionDict) (n : ℕ) : List ActionDict :=
  l.drop (l.length - n)

/-- `len(set(l)) == 1` for a list of strings. -/
def setSize1 (l : List String) : Bool :=
  !l.isEmpty && l.all (fun x => x = l.headD "")

/-- One numbered line of the previous-actions summary. -/
def fmtHistLine (i : ℕ) (a : ActionDict) : String :=
  let t := a.action.getD "UNKNOWN"
  let ex := a.explain.getD ""
  if t = "CLICK" then
    toString i ++ ". CLICK " ++ a.grid.getD "" ++ " - " ++ ex ++ "\n"
  else if t = "TYPE" then
    toString i ++ ". TYPE \"" ++ a.value.getD "" ++ "\" - " ++ ex ++ "\n"
  else if t = "SCROLL" then
    toString i ++ ". SCROLL " ++ a.value.getD "" ++ " - " ++ ex ++ "\n"
  else if t = "AWAKE" then
    toString i ++ ". AWAKE " ++ a.value.getD "" ++ " - " ++ ex ++ "\n"
  else
    toString i ++ ". " ++ t ++ " - " ++ ex ++ "\n"

/-- The numbered summary of the last five history entries, in order. -/
def histLines (hist : List ActionDict) : String :=
  String.join (((takeLast hist 5).enumFrom 1).map (fun p => fmtHistLine p.1 p.2))

/-- The repeated-click warning text (with the repeated grid label
interpolated). -/
def warnRepeatedClick (g : String) : String :=
  "⚠️ **Warning**: Last 2 CLICK actions targeted the same grid position \x27"
    ++ g ++ "\x27!\n"
    ++ "The UI likely changed after the first click. Analyze the current screenshot carefully.\n"
    ++ "Do NOT repeat the same click unless you\x27re certain it\x27s needed.\n\n"

/-- The stronger stuck warning text suggesting a recovery action. -/
def warnStuck : String :=
  "⚠️ **Warning**: Last 3 actions had same explanation. You might be stuck!\n"
    ++ "Consider: Click back button (top-left, grid A1-B3) or try different approach.\n\n"

/-- The stuck-detection block of `_build_user_message`. -/
def stuckWarnings (hist : List ActionDict) : String :=
  if 2 ≤ hist.length then
    let recent := takeLast hist 2
    let grids := recent.map (fun a => a.grid.getD "")
    let w1 :=
      if recent.all (fun a => a.action = some "CLICK") && setSize1 grids
          && grids.headD "" ≠ "" then
        warnRepeatedClick (grids.headD "")
      else ""
    let w2 :=
      if 3 ≤ hist.length then
        if setSize1 ((takeLast hist 3).map (fun a => a.explain.getD "")) then warnStuck
        else ""
      else ""
    w1 ++ w2
  else ""

/-- `ClaudeClient._build_user_message`. -/
def buildUserMessage (task : String) (hist : List ActionDict) : String :=
  let base := "**User Goal:** " ++ task ++ "\n\n"
  let mid :=
    if 0 < hist.length then
      "**Previous Actions:**\n" ++ histLines hist ++ "\n" ++ stuckWarnings hist
    else ""
  base ++ mid ++ "**What is the next action?** (Output JSON only)"

/-- One block of the `content` array sent to the decision model. -/
inductive ContentBlock
  | image (data : String)
  | text (t : String)
deriving DecidableEq

/-- The `content` array built by `ClaudeClient.get_action`: the last
history entry's marked screenshot (if any) with its caption, then the
current annotated screenshot, then the user message. -/
def buildContent (task shot : String) (hist : List ActionDict) : List ContentBlock :=
  let prev :=
    match hist.getLast? with
    | some last =>
      match last.markedScreenshotB64 with
      | some img =>
        [ContentBlock.image img,
         ContentBlock.text
           "**Previous step screenshot** (showing the action that was just executed):\n\n"]
      | none => []
    | none => []
  prev ++ [ContentBlock.image shot, ContentBlock.text (buildUserMessage task hist)]

/-- `w` occurs as a contiguous substring of `m`. -/
def containsStr (m w : String) : Prop :=
  ∃ p s : String, m = p ++ w ++ s

/-! ### Run loop (`LightGUIAgent.run_task`) -/

/-- `action["action"] == "COMPLETE"`. -/
def isCOMPLETE (a : ActionDict) : Bool :=
  a.action = some "COMPLETE"

/-- Summary of a task run: the success flag computed at the end of
`run_task`, the final step counter, and the history. -/
structure RunResult where
  success : Bool
  steps : ℕ
  history : List ActionDict
deriving DecidableEq

/-- The `for step in range(1, max_steps + 1)` loop of `run_task`.  The
oracle yields the validated action of each step, or `none` when the
step raises (capture, decision or execution failure), which ends the
run with the history accumulated so far.  A `COMPLETE` action breaks
the loop after being appended. -/
def runLoop (oracle : ℕ → Option ActionDict) : ℕ → ℕ → List ActionDict →
    List ActionDict × ℕ
  | 0, step, hist => (hist, step - 1)
  | fuel + 1, step, hist =>
    match oracle step with
    | none => (hist, step)
    | some a =>
      if isCOMPLETE a then (hist ++ [a], step)
      else runLoop oracle fuel (step + 1) (hist ++ [a])

/-- `LightGUIAgent.run_task`: run the loop from step 1 with fresh
history; `success = len(history) > 0 and history[-1]["action"] == "COMPLETE"`. -/
def runTask (oracle : ℕ → Option ActionDict) (maxSteps : ℕ) : RunResult :=
  let r := runLoop oracle maxSteps 1 []
  { history := r.1
    steps := r.2
    success := !r.1.isEmpty && (match r.1.getLast? with
      | some a => isCOMPLETE a
      | none => false) }

/-! ### Character and Python-string lemmas -/

theorem char_toNat_ofNat {n : ℕ} (h : n.isValidChar) : (Char.ofNat n).toNat = n := by
  simp [Char.ofNat, dif_pos h, Char.ofNatAux, Char.toNat, UInt32.toNat]

theorem valid_of_le {n : ℕ} (h : n ≤ 1000) : n.isValidChar :=
  Or.inl (by omega)

theorem char_ofNat_inj {m n : ℕ} (hm : m ≤ 1000) (hn : n ≤ 1000)
    (h : Char.ofNat m = Char.ofNat n) : m = n := by
  have h2 := congrArg Char.toNat h
  rwa [char_toNat_ofNat (valid_of_le hm), char_toNat_ofNat (valid_of_le hn)] at h2

theorem letter_char_facts {c : ℕ} (hc : c ≤ 25) :
    Char.toUpper (Char.ofNat (65 + c)) = Char.ofNat (65 + c) ∧
    (Char.ofNat (65 + c)).isDigit = false ∧
    pyIsSpace (Char.ofNat (65 + c)) = false ∧
    Char.ofNat (65 + c) ≠ '+' ∧ Char.ofNat (65 + c) ≠ '-' := by
  interval_cases c <;> exact ⟨by decide, by decide, by decide, by decide, by decide⟩

theorem digit_char_facts {d : ℕ} (hd : d < 10) :
    Char.toUpper (Char.ofNat (48 + d)) = Char.ofNat (48 + d) ∧
    (Char.ofNat (48 + d)).isDigit = true ∧
    pyIsSpace (Char.ofNat (48 + d)) = false ∧
    Char.ofNat (48 + d) ≠ '+' ∧ Char.ofNat (48 + d) ≠ '-' ∧
    (Char.ofNat (48 + d)).toNat - 48 = d := by
  interval_cases d <;>
    exact ⟨by decide, by decide, by decide, by decide, by decide, by decide⟩

theorem dropWhile_eq_self_of {p : Char → Bool} {l : List Char}
    (h : ∀ a ∈ l, p a = false) : l.dropWhile p = l := by
  cases l with
  | nil => rfl
  | cons a t => simp [List.dropWhile_cons, h a (List.mem_cons_self a t)]

theorem pyStrip_eq_self {l : List Char} (h : ∀ a ∈ l, pyIsSpace a = false) :
    pyStrip l = l := by
  unfold pyStrip
  rw [dropWhile_eq_self_of h, dropWhile_eq_self_of (by simpa using h),
    List.reverse_reverse]

theorem pyUpper_eq_self {l : List Char} (h : ∀ a ∈ l, Char.toUpper a = a) :
    pyUpper l = l := by
  unfold pyUpper
  induction l with
  | nil => rfl
  | cons a t ih =>
    simp only [List.map_cons, h a (List.mem_cons_self a t)]
    rw [ih (fun b hb => h b (List.mem_cons_of_mem a hb))]

theorem natReprAux_zero (fuel : ℕ) : natReprAux fuel 0 = [] := by
  cases fuel with
  | zero => rfl
  | succ k => simp [natReprAux]

theorem natReprAux_digits {fuel n : ℕ} (hn : n ≤ fuel) :
    natReprAux fuel n = (Nat.digits 10 n).reverse.map (fun d => Char.ofNat (48 + d)) := by
  induction fuel generalizing n with
  | zero =>
    have : n = 0 := by omega
    simp [this, natReprAux]
  | succ k ih =>
    by_cases h0 : n = 0
    · simp [h0, natReprAux]
    · rw [natReprAux, if_neg h0]
      rw [Nat.digits_def' (by norm_num : 1 < 10) (Nat.pos_of_ne_zero h0)]
      rw [List.reverse_cons, List.map_append]
      rw [ih (by omega : n / 10 ≤ k)]
      rfl

theorem natRepr_shape (r : ℕ) :
    ∃ D : List ℕ, D ≠ [] ∧ (∀ d ∈ D, d < 10) ∧
      natRepr r = D.map (fun d => Char.ofNat (48 + d)) ∧
      D.foldl (fun a d => 10 * a + d) 0 = r := by
  by_cases h : r = 0
  · exact ⟨[0], by simp, by simp, by simp [natRepr, h], by simp [h]⟩
  · refine ⟨(Nat.digits 10 r).reverse, ?_, ?_, ?_, ?_⟩
    · simp [Nat.digits_ne_nil_iff_ne_zero, h]
    · intro d hd
      exact Nat.digits_lt_base (by norm_num) (List.mem_reverse.mp hd)
    · rw [natRepr, if_neg h]
      exact natReprAux_digits le_rfl
    · have key : ∀ (L : List ℕ) (acc : ℕ),
          L.reverse.foldl (fun a d => 10 * a + d) acc
            = acc * 10 ^ L.length + Nat.ofDigits 10 L := by
        intro L
        induction L with
        | nil => intro acc; simp
        | cons d t ih =>
          intro acc
          simp only [List.reverse_cons, List.foldl_append, List.foldl_cons,
            List.foldl_nil, ih acc, Nat.ofDigits_cons, List.length_cons]
          ring
      have h2 := key (Nat.digits 10 r) 0
      simpa [Nat.ofDigits_digits] using h2

theorem pyDigitsAux_digits {D : List ℕ} (hD : ∀ d ∈ D, d < 10) (acc : ℕ) :
    pyDigitsAux acc (D.map (fun d => Char.ofNat (48 + d)))
      = some (D.foldl (fun a d => 10 * a + d) acc) := by
  induction D generalizing acc with
  | nil => simp [pyDigitsAux]
  | cons d t ih =>
    have hd := hD d (List.mem_cons_self d t)
    have hf := digit_char_facts hd
    have step : pyDigitsAux acc ((d :: t).map (fun x => Char.ofNat (48 + x)))
        = pyDigitsAux (10 * acc + d) (t.map (fun x => Char.ofNat (48 + x))) := by
      simp only [List.map_cons, pyDigitsAux, hf.2.1, if_true, hf.2.2.2.2.2]
    rw [step, List.foldl_cons]
    exact ih (fun x hx => hD x (List.mem_cons_of_mem d hx)) _

theorem pyDigits_digits {D : List ℕ} (hD : ∀ d ∈ D, d < 10) (hne : D ≠ []) :
    pyDigits (D.map (fun d => Char.ofNat (48 + d)))
      = some (D.foldl (fun a d => 10 * a + d) 0) := by
  obtain ⟨d, t, rfl⟩ := List.exists_cons_of_ne_nil hne
  have hd := hD d (List.mem_cons_self d t)
  have hf := digit_char_facts hd
  simp only [List.map_cons, pyDigits, hf.2.1, if_true, hf.2.2.2.2.2, List.foldl_cons]
  have h0 : 10 * 0 + d = d := by ring
  rw [h0]
  exact pyDigitsAux_digits (fun x hx => hD x (List.mem_cons_of_mem d hx)) d

theorem natRepr_chars {r : ℕ} :
    ∀ a ∈ natRepr r, Char.toUpper a = a ∧ pyIsSpace a = false ∧ a.isDigit = true := by
  obtain ⟨D, hne, hlt, hrep, hval⟩ := natRepr_shape r
  intro a ha
  rw [hrep] at ha
  obtain ⟨x, hx, rfl⟩ := List.mem_map.mp ha
  have hf := digit_char_facts (hlt x hx)
  exact ⟨hf.1, hf.2.2.1, hf.2.1⟩

theorem natRepr_ne_nil (r : ℕ) : natRepr r ≠ [] := by
  obtain ⟨D, hne, hlt, hrep, hval⟩ := natRepr_shape r
  rw [hrep]
  simpa using hne

theorem pyInt_natRepr (r : ℕ) : pyInt (natRepr r) = some (r : ℤ) := by
  obtain ⟨D, hne, hlt, hrep, hval⟩ := natRepr_shape r
  have hstrip : pyStrip (natRepr r) = natRepr r :=
    pyStrip_eq_self (fun a ha => (natRepr_chars a ha).2.1)
  have hdig : pyDigits (natRepr r) = some r := by
    rw [hrep, pyDigits_digits hlt hne, hval]
  obtain ⟨ch, cs, hcons⟩ := List.exists_cons_of_ne_nil (natRepr_ne_nil r)
  have hch : ch ∈ natRepr r := hcons ▸ List.mem_cons_self ch cs
  have hchd : ch.isDigit = true := (natRepr_chars ch hch).2.2
  have hplus : ch ≠ '+' := by
    intro h; rw [h] at hchd; exact absurd hchd (by decide)
  have hminus : ch ≠ '-' := by
    intro h; rw [h] at hchd; exact absurd hchd (by decide)
  rw [pyInt, hstrip, hcons]
  simp only [if_neg hplus, if_neg hminus, ← hcons, hdig]

/-! ### Grid label parsing lemmas -/

theorem colLetters_indexOf {g : GridSpec} {c : ℕ} (hc : c < g.cols) (h25 : c ≤ 25) :
    g.colLetters.indexOf (Char.ofNat (65 + c)) = c := by
  unfold GridSpec.colLetters
  have hsplit : g.cols = c + (g.cols - c) := by omega
  rw [hsplit, List.range_add, List.map_append]
  rw [List.indexOf_append_of_not_mem]
  · obtain ⟨k, hk⟩ : ∃ k, g.cols - c = k + 1 := ⟨g.cols - c - 1, by omega⟩
    rw [hk, List.range_succ_eq_map]
    simp only [List.map_cons, Nat.add_zero, List.length_map, List.length_range]
    rw [List.indexOf_cons_self]
    omega
  · intro hmem
    obtain ⟨i, hi, heq⟩ := List.mem_map.mp hmem
    rw [List.mem_range] at hi
    have := char_ofNat_inj (by omega) (by omega) heq.symm
    omega

theorem colLetters_mem {g : GridSpec} {c : ℕ} (hc : c < g.cols) :
    Char.ofNat (65 + c) ∈ g.colLetters :=
  List.mem_map.mpr ⟨c, List.mem_range.mpr hc, rfl⟩

theorem colLetters_getD {g : GridSpec} {c : ℕ} (hc : c < g.cols) (d : Char) :
    g.colLetters.getD c d = Char.ofNat (65 + c) := by
  unfold GridSpec.colLetters
  rw [List.getD_eq_getElem?_getD, List.getElem?_map, List.getElem?_range hc]
  rfl

theorem label_data (c r : ℕ) :
    (labelStr c r).data = Char.ofNat (65 + c) :: natRepr r := rfl

theorem label_processed {c r : ℕ} (h25 : c ≤ 25) :
    pyUpper (pyStrip (labelStr c r).data) = Char.ofNat (65 + c) :: natRepr r := by
  have hl := letter_char_facts h25
  rw [label_data]
  rw [pyStrip_eq_self, pyUpper_eq_self]
  · intro a ha
    rcases List.mem_cons.mp ha with h | h
    · rw [h]; exact hl.1
    · exact (natRepr_chars a h).1
  · intro a ha
    rcases List.mem_cons.mp ha with h | h
    · rw [h]; exact hl.2.2.1
    · exact (natRepr_chars a h).2.1

theorem gridToPixel_label {g : GridSpec} {c r : ℕ} (h25 : c ≤ 25) (hc : c < g.cols)
    (hr1 : 1 ≤ r) (hrR : r ≤ g.rows) :
    gridToPixel g (labelStr c r) =
      .ok (ratTrunc (((c : ℚ) + 1/2) * g.cellWidth),
           ratTrunc (((r : ℚ) - 1/2) * g.cellHeight)) := by
  obtain ⟨ch, cs, hcons⟩ := List.exists_cons_of_ne_nil (natRepr_ne_nil r)
  have hproc : pyUpper (pyStrip (labelStr c r).data)
      = Char.ofNat (65 + c) :: ch :: cs := by
    rw [label_processed h25, hcons]
  have hrange : (1 : ℤ) ≤ (r : ℤ) ∧ (r : ℤ) ≤ (g.rows : ℤ) :=
    ⟨by exact_mod_cast hr1, by exact_mod_cast hrR⟩
  rw [gridToPixel, hproc]
  simp only [if_pos (colLetters_mem hc), ← hcons, pyInt_natRepr,
    colLetters_indexOf hc h25, if_pos hrange]
  push_cast
  rfl

theorem getCellBounds_label {g : GridSpec} {c r : ℕ} (h25 : c ≤ 25) (hc : c < g.cols) :
    getCellBounds g (labelStr c r) =
      some (ratTrunc ((c : ℚ) * g.cellWidth),
            ratTrunc (((r : ℚ) - 1) * g.cellHeight),
            ratTrunc (((c : ℚ) + 1) * g.cellWidth),
            ratTrunc ((r : ℚ) * g.cellHeight)) := by
  obtain ⟨ch, cs, hcons⟩ := List.exists_cons_of_ne_nil (natRepr_ne_nil r)
  have hproc : pyUpper (pyStrip (labelStr c r).data)
      = Char.ofNat (65 + c) :: ch :: cs := by
    rw [label_processed h25, hcons]
  rw [getCellBounds, hproc]
  simp only [← hcons, pyInt_natRepr, if_pos (colLetters_mem hc),
    colLetters_indexOf hc h25]
  push_cast
  rfl

/-! ### Floor and truncation arithmetic -/

theorem ratTrunc_of_nonneg {q : ℚ} (h : 0 ≤ q) : ratTrunc q = ⌊q⌋ :=
  if_neg (not_lt.mpr h)

theorem ratTrunc_eq {q : ℚ} {z : ℤ} (h0 : 0 ≤ q) (h1 : (z : ℚ) ≤ q)
    (h2 : q < z + 1) : ratTrunc q = z := by
  rw [ratTrunc_of_nonneg h0]
  rw [Int.floor_eq_iff]
  exact ⟨h1, by exact_mod_cast h2⟩

theorem clamp_trunc_eq_clamp_floor (q : ℚ) (n : ℤ) (hn : 0 ≤ n) :
    max 0 (min (ratTrunc q) n) = max 0 (min ⌊q⌋ n) := by
  by_cases hq : q < 0
  · rw [ratTrunc, if_pos hq]
    have hceil : ⌈q⌉ ≤ 0 := Int.ceil_le.mpr (by exact_mod_cast hq.le)
    have hfloor : ⌊q⌋ ≤ 0 :=
      le_trans (Int.floor_le_ceil q) (Int.ceil_le.mpr (by exact_mod_cast hq.le))
    rw [min_eq_left (le_trans hceil hn), min_eq_left (le_trans hfloor hn)]
    omega
  · rw [ratTrunc, if_neg hq]

theorem floor_center_roundtrip {cw : ℚ} (hcw : 2 ≤ cw) (c : ℕ) :
    ⌊((⌊((c : ℚ) + 1/2) * cw⌋ : ℤ) : ℚ) / cw⌋ = c := by
  have hcw0 : 0 < cw := by linarith
  set t : ℚ := ((c : ℚ) + 1/2) * cw with ht
  have hc0 : (0 : ℚ) ≤ (c : ℚ) := Nat.cast_nonneg c
  have h1 : (c : ℚ) * cw + 1 ≤ t := by
    rw [ht]; nlinarith
  have hgt : (c : ℚ) * cw < ((⌊t⌋ : ℤ) : ℚ) := by
    have hs := Int.sub_one_lt_floor t
    linarith
  have hlt : ((⌊t⌋ : ℤ) : ℚ) < ((c : ℚ) + 1) * cw := by
    have hle := Int.floor_le t
    have h2 : t < ((c : ℚ) + 1) * cw := by rw [ht]; nlinarith
    linarith
  rw [Int.floor_eq_iff]
  constructor
  · rw [le_div_iff₀ hcw0]
    push_cast
    linarith
  · rw [div_lt_iff₀ hcw0]
    push_cast
    linarith

theorem clamp_self {c n : ℤ} (h0 : 0 ≤ c) (hn : c ≤ n - 1) :
    max 0 (min c (n - 1)) = c := by omega

theorem cellWidth_ge_two {g : GridSpec} (hC : 1 ≤ g.cols) (hW : 2 * g.cols ≤ g.width) :
    2 ≤ g.cellWidth := by
  unfold GridSpec.cellWidth
  rw [le_div_iff₀ (by exact_mod_cast hC : (0 : ℚ) < (g.cols : ℚ))]
  exact_mod_cast hW

theorem cellHeight_ge_two {g : GridSpec} (hR : 1 ≤ g.rows) (hH : 2 * g.rows ≤ g.height) :
    2 ≤ g.cellHeight := by
  unfold GridSpec.cellHeight
  rw [le_div_iff₀ (by exact_mod_cast hR : (0 : ℚ) < (g.rows : ℚ))]
  exact_mod_cast hH

theorem roundtrip_index {cw : ℚ} (hcw : 2 ≤ cw) {n c : ℕ} (hc : c < n) :
    max 0 (min (ratTrunc (((ratTrunc (((c : ℚ) + 1/2) * cw) : ℤ) : ℚ) / cw))
      ((n : ℤ) - 1)) = (c : ℤ) := by
  have hcw0 : (0 : ℚ) < cw := by linarith
  have ht0 : (0 : ℚ) ≤ ((c : ℚ) + 1/2) * cw := by positivity
  rw [ratTrunc_of_nonneg ht0]
  have hx0 : (0 : ℤ) ≤ ⌊((c : ℚ) + 1/2) * cw⌋ := Int.floor_nonneg.mpr ht0
  have hq0 : (0 : ℚ) ≤ ((⌊((c : ℚ) + 1/2) * cw⌋ : ℤ) : ℚ) / cw := by
    apply div_nonneg _ hcw0.le
    exact_mod_cast hx0
  rw [ratTrunc_of_nonneg hq0, floor_center_roundtrip hcw c]
  exact clamp_self (by exact_mod_cast Nat.zero_le c) (by omega)

theorem pixelToGrid_apply (g : GridSpec) (x y : ℤ) :
    pixelToGrid g x y = String.mk
      (g.colLetters.getD
          (max 0 (min (ratTrunc ((x : ℚ) / g.cellWidth)) ((g.cols : ℤ) - 1))).toNat
          (Char.ofNat 0)
        :: natRepr
          ((max 0 (min (ratTrunc ((y : ℚ) / g.cellHeight)) ((g.rows : ℤ) - 1))).toNat
            + 1)) :=
  rfl

/-- C1 (amended): for every grid whose cells are at least two pixels wide
and tall (`2C ≤ W`, `2R ≤ H`), converting a valid label to its center
pixel with `grid_to_pixel` and mapping back with `pixel_to_grid` returns
the original label. -/
theorem c1_thm {g : GridSpec} {c r : ℕ}
    (hC : 1 ≤ g.cols) (hR : 1 ≤ g.rows)
    (hW : 2 * g.cols ≤ g.width) (hH : 2 * g.rows ≤ g.height)
    (h25 : c ≤ 25) (hc : c < g.cols) (hr1 : 1 ≤ r) (hrR : r ≤ g.rows) :
    (gridToPixel g (labelStr c r)).map (fun p => pixelToGrid g p.1 p.2)
      = .ok (labelStr c r) := by
  have hcw := cellWidth_ge_two hC hW
  have hch := cellHeight_ge_two hR hH
  rw [gridToPixel_label h25 hc hr1 hrR]
  have hcol := roundtrip_index hcw hc
  have hrow0 : ((r : ℚ) - 1/2) = (((r - 1 : ℕ) : ℚ) + 1/2) := by
    rw [Nat.cast_sub hr1]
    push_cast
    ring
  have hrow : max 0 (min (ratTrunc
      (((ratTrunc (((r : ℚ) - 1/2) * g.cellHeight) : ℤ) : ℚ) / g.cellHeight))
      ((g.rows : ℤ) - 1)) = ((r - 1 : ℕ) : ℤ) := by
    rw [hrow0]
    exact roundtrip_index hch (by omega)
  show Except.ok (pixelToGrid g _ _) = _
  rw [pixelToGrid_apply, hcol, hrow]
  rw [Int.toNat_natCast, Int.toNat_natCast, colLetters_getD hc]
  have hsucc : r - 1 + 1 = r := by omega
  rw [hsucc]
  rfl

/-- C1 counterexample: on a 4×1 grid over a 5×2 screen (cells 1.25
pixels wide, a GridSpec with C,R ≥ 1), the center of cell B1 truncates
to pixel (1, 1), which maps back to "A1": the round trip fails as the
claim quantifies it. -/
theorem c1_counterexample :
    (gridToPixel (⟨4, 1, 5, 2⟩ : GridSpec) (labelStr 1 1)).map
        (fun p => pixelToGrid (⟨4, 1, 5, 2⟩ : GridSpec) p.1 p.2)
      = .ok (labelStr 0 1) ∧ labelStr 0 1 ≠ labelStr 1 1 := by
  constructor
  · have hcw : (⟨4, 1, 5, 2⟩ : GridSpec).cellWidth = 5/4 := by
      norm_num [GridSpec.cellWidth]
    have hch : (⟨4, 1, 5, 2⟩ : GridSpec).cellHeight = 2 := by
      norm_num [GridSpec.cellHeight]
    rw [gridToPixel_label (by norm_num) (by norm_num) le_rfl le_rfl, hcw, hch]
    have hx : ratTrunc (((1 : ℕ) + 1/2 : ℚ) * (5/4)) = 1 := by
      apply ratTrunc_eq <;> norm_num
    have hy : ratTrunc (((1 : ℕ) - 1/2 : ℚ) * 2) = 1 := by
      apply ratTrunc_eq <;> norm_num
    rw [hx, hy]
    show Except.ok (pixelToGrid _ 1 1) = _
    rw [pixelToGrid_apply, hcw, hch]
    have hcx : ratTrunc (((1 : ℤ) : ℚ) / (5/4)) = 0 := by
      apply ratTrunc_eq <;> norm_num
    have hcy : ratTrunc (((1 : ℤ) : ℚ) / 2) = 0 := by
      apply ratTrunc_eq <;> norm_num
    rw [hcx, hcy]
    norm_num
    decide
  · decide

theorem c1_witness :
    1 ≤ spec10.cols ∧ 1 ≤ spec10.rows ∧ 2 * spec10.cols ≤ spec10.width ∧
    2 * spec10.rows ≤ spec10.height ∧ (4 : ℕ) ≤ 25 ∧ 4 < spec10.cols ∧
    (1 : ℕ) ≤ 5 ∧ 5 ≤ spec10.rows ∧
    (gridToPixel spec10 (labelStr 4 5)).map (fun p => pixelToGrid spec10 p.1 p.2)
      = .ok (labelStr 4 5) :=
  ⟨by decide, by decide, by decide, by decide, by decide, by decide, by decide, by decide,
    c1_thm (by decide) (by decide) (by decide) (by decide) (by decide) (by decide)
      (by decide) (by decide)⟩

theorem spec10_cellWidth : spec10.cellWidth = 108 := by
  norm_num [GridSpec.cellWidth, spec10]

theorem spec10_cellHeight : spec10.cellHeight = 120 := by
  norm_num [GridSpec.cellHeight, spec10]

/-- C3: under the default 10×20 grid on 1080×2400 (cells 108×120),
`grid_to_pixel` returns the truncated cell center, which works out to
`(108 c + 54, 120 r - 60)`; concretely A1 ↦ (54,60), E5 ↦ (486,540),
J20 ↦ (1026,2340). -/
theorem c3_thm :
    (∀ c r : ℕ, c < 10 → 1 ≤ r → r ≤ 20 →
      gridToPixel spec10 (labelStr c r)
        = .ok (108 * (c : ℤ) + 54, 120 * (r : ℤ) - 60)) ∧
    gridToPixel spec10 "A1" = .ok (54, 60) ∧
    gridToPixel spec10 "E5" = .ok (486, 540) ∧
    gridToPixel spec10 "J20" = .ok (1026, 2340) := by
  have hgen : ∀ c r : ℕ, c < 10 → 1 ≤ r → r ≤ 20 →
      gridToPixel spec10 (labelStr c r)
        = .ok (108 * (c : ℤ) + 54, 120 * (r : ℤ) - 60) := by
    intro c r hc hr1 hr20
    rw [gridToPixel_label (by omega) (by simpa [spec10] using hc) hr1
      (by simpa [spec10] using hr20)]
    rw [spec10_cellWidth, spec10_cellHeight]
    have e1 : ratTrunc (((c : ℚ) + 1/2) * 108) = 108 * (c : ℤ) + 54 := by
      rw [ratTrunc_of_nonneg (by positivity)]
      have e : ((c : ℚ) + 1/2) * 108 = ((108 * (c : ℤ) + 54 : ℤ) : ℚ) := by
        push_cast; ring
      rw [e, Int.floor_intCast]
    have hr1q : (1 : ℚ) ≤ (r : ℚ) := by exact_mod_cast hr1
    have e2 : ratTrunc (((r : ℚ) - 1/2) * 120) = 120 * (r : ℤ) - 60 := by
      rw [ratTrunc_of_nonneg (by nlinarith)]
      have e : ((r : ℚ) - 1/2) * 120 = ((120 * (r : ℤ) - 60 : ℤ) : ℚ) := by
        push_cast; ring
      rw [e, Int.floor_intCast]
    rw [e1, e2]
  refine ⟨hgen, ?_, ?_, ?_⟩
  · have e : labelStr 0 1 = "A1" := by decide
    have h := hgen 0 1 (by norm_num) le_rfl (by norm_num)
    rw [e] at h
    simpa using h
  · have e : labelStr 4 5 = "E5" := by decide
    have h := hgen 4 5 (by norm_num) (by norm_num) (by norm_num)
    rw [e] at h
    simpa using h
  · have e : labelStr 9 20 = "J20" := by decide
    have h := hgen 9 20 (by norm_num) (by norm_num) le_rfl
    rw [e] at h
    simpa using h

theorem c3_witness :
    (5 : ℕ) < 10 ∧ (1 : ℕ) ≤ 10 ∧ (10 : ℕ) ≤ 20 ∧
    gridToPixel spec10 (labelStr 5 10) = .ok (594, 1140) := by
  refine ⟨by norm_num, by norm_num, by norm_num, ?_⟩
  have h := c3_thm.1 5 10 (by norm_num) (by norm_num) (by norm_num)
  simpa using h

theorem cellWidth_nonneg (g : GridSpec) : 0 ≤ g.cellWidth :=
  div_nonneg (Nat.cast_nonneg _) (Nat.cast_nonneg _)

theorem cellHeight_nonneg (g : GridSpec) : 0 ≤ g.cellHeight :=
  div_nonneg (Nat.cast_nonneg _) (Nat.cast_nonneg _)

theorem strict_inside_index {cw : ℚ} (hcw0 : 0 ≤ cw) {n c : ℕ} (hc : c < n) {x : ℤ}
    (hl : ratTrunc ((c : ℚ) * cw) < x) (hr : x < ratTrunc (((c : ℚ) + 1) * cw)) :
    max 0 (min (ratTrunc ((x : ℚ) / cw)) ((n : ℤ) - 1)) = (c : ℤ) := by
  have hl0 : (0 : ℚ) ≤ (c : ℚ) * cw := by positivity
  have hr0 : (0 : ℚ) ≤ ((c : ℚ) + 1) * cw := by positivity
  rw [ratTrunc_of_nonneg hl0] at hl
  rw [ratTrunc_of_nonneg hr0] at hr
  have hx1 : (c : ℚ) * cw < (x : ℤ) := by
    have h1 : ⌊(c : ℚ) * cw⌋ + 1 ≤ x := hl
    have h2 : (c : ℚ) * cw < ⌊(c : ℚ) * cw⌋ + 1 := Int.lt_floor_add_one _
    calc (c : ℚ) * cw < ((⌊(c : ℚ) * cw⌋ + 1 : ℤ) : ℚ) := by exact_mod_cast h2
      _ ≤ ((x : ℤ) : ℚ) := by exact_mod_cast h1
  have hx2 : ((x : ℤ) : ℚ) < ((c : ℚ) + 1) * cw := by
    have h1 : ((x : ℤ) : ℚ) < (⌊((c : ℚ) + 1) * cw⌋ : ℚ) := by exact_mod_cast hr
    have h2 : ((⌊((c : ℚ) + 1) * cw⌋ : ℤ) : ℚ) ≤ ((c : ℚ) + 1) * cw := Int.floor_le _
    linarith
  have hcwpos : 0 < cw := by
    rcases lt_or_eq_of_le hcw0 with h | h
    · exact h
    · exfalso
      rw [← h] at hx1 hx2
      simp at hx1 hx2
      linarith
  have hx0 : (0 : ℚ) ≤ ((x : ℤ) : ℚ) := le_trans hl0 hx1.le
  rw [ratTrunc_of_nonneg (div_nonneg hx0 hcw0)]
  have hfl : ⌊((x : ℤ) : ℚ) / cw⌋ = (c : ℤ) := by
    rw [Int.floor_eq_iff]
    constructor
    · rw [le_div_iff₀ hcwpos]
      push_cast
      linarith
    · rw [div_lt_iff₀ hcwpos]
      push_cast
      linarith
  rw [hfl]
  exact clamp_self (by exact_mod_cast Nat.zero_le c) (by omega)

/-- C7: `pixel_to_grid` is total over integer points: it always returns
the label whose column index is `floor(x / cellWidth)` clamped into
`[0, C-1]` and whose row is the clamped `floor(y / cellHeight)` plus
one (so out-of-range points, including negative coordinates, degrade
to the nearest edge cell); and a point strictly inside a cell's
`get_cell_bounds` rectangle maps to that cell's label. -/
theorem c7_thm :
    (∀ (g : GridSpec), 1 ≤ g.cols → 1 ≤ g.rows → ∀ x y : ℤ,
      pixelToGrid g x y =
        labelStr (max 0 (min ⌊(x : ℚ) / g.cellWidth⌋ ((g.cols : ℤ) - 1))).toNat
          ((max 0 (min ⌊(y : ℚ) / g.cellHeight⌋ ((g.rows : ℤ) - 1))).toNat + 1)) ∧
    (∀ (g : GridSpec) (c r : ℕ), c ≤ 25 → c < g.cols → 1 ≤ r → r ≤ g.rows →
      ∀ (x y l t rt b : ℤ),
        getCellBounds g (labelStr c r) = some (l, t, rt, b) →
        l < x → x < rt → t < y → y < b →
        pixelToGrid g x y = labelStr c r) := by
  constructor
  · intro g hC hR x y
    rw [pixelToGrid_apply]
    rw [clamp_trunc_eq_clamp_floor _ _ (by omega : (0 : ℤ) ≤ (g.cols : ℤ) - 1)]
    rw [clamp_trunc_eq_clamp_floor _ _ (by omega : (0 : ℤ) ≤ (g.rows : ℤ) - 1)]
    have hlt : (max 0 (min ⌊(x : ℚ) / g.cellWidth⌋ ((g.cols : ℤ) - 1))).toNat
        < g.cols := by omega
    rw [colLetters_getD hlt]
    rfl
  · intro g c r h25 hc hr1 hrR x y l t rt b hbounds hl hx ht hy
    rw [getCellBounds_label h25 hc] at hbounds
    rw [Option.some.injEq, Prod.mk.injEq, Prod.mk.injEq, Prod.mk.injEq] at hbounds
    obtain ⟨h1, h2, h3, h4⟩ := hbounds
    subst h1; subst h2; subst h3; subst h4
    have hrow0 : ((r : ℚ) - 1) = ((r - 1 : ℕ) : ℚ) := by
      rw [Nat.cast_sub hr1]; push_cast; ring
    rw [hrow0] at ht
    have hrow1 : (r : ℚ) = ((r - 1 : ℕ) : ℚ) + 1 := by
      rw [Nat.cast_sub hr1]; push_cast; ring
    rw [hrow1] at hy
    have hcol := strict_inside_index (cellWidth_nonneg g) hc hl hx
    have hrow := strict_inside_index (cellHeight_nonneg g)
      (by omega : r - 1 < g.rows) ht hy
    rw [pixelToGrid_apply, hcol, hrow]
    rw [Int.toNat_natCast, Int.toNat_natCast, colLetters_getD hc]
    have hsucc : r - 1 + 1 = r := by omega
    rw [hsucc]
    rfl

theorem c7_witness :
    1 ≤ spec10.cols ∧ 1 ≤ spec10.rows ∧
    pixelToGrid spec10 (-50) 99999
      = labelStr (max 0 (min ⌊((-50 : ℤ) : ℚ) / spec10.cellWidth⌋
          ((spec10.cols : ℤ) - 1))).toNat
        ((max 0 (min ⌊((99999 : ℤ) : ℚ) / spec10.cellHeight⌋
          ((spec10.rows : ℤ) - 1))).toNat + 1) :=
  ⟨by decide, by decide, c7_thm.1 spec10 (by decide) (by decide) (-50) 99999⟩

/-- C8: the rectangles of `get_cell_bounds` tile the screen exactly:
horizontally adjacent cells share an edge (and vertically), the first
column starts at 0 and the last ends at W (likewise rows at 0 and H),
and cells in distinct columns (or rows) never overlap. -/
theorem c8_thm (g : GridSpec) (hC : 1 ≤ g.cols) (hR : 1 ≤ g.rows) :
    (∀ c r : ℕ, c + 1 ≤ 25 → c + 1 < g.cols → 1 ≤ r → r ≤ g.rows →
      (getCellBounds g (labelStr c r)).map (fun q => q.2.2.1)
        = (getCellBounds g (labelStr (c + 1) r)).map (fun q => q.1)) ∧
    (∀ c r : ℕ, c ≤ 25 → c < g.cols → 1 ≤ r → r + 1 ≤ g.rows →
      (getCellBounds g (labelStr c r)).map (fun q => q.2.2.2)
        = (getCellBounds g (labelStr c (r + 1))).map (fun q => q.2.1)) ∧
    (∀ r : ℕ, 1 ≤ r → r ≤ g.rows →
      (getCellBounds g (labelStr 0 r)).map (fun q => q.1) = some 0) ∧
    (∀ r : ℕ, g.cols - 1 ≤ 25 → 1 ≤ r → r ≤ g.rows →
      (getCellBounds g (labelStr (g.cols - 1) r)).map (fun q => q.2.2.1)
        = some (g.width : ℤ)) ∧
    (∀ c : ℕ, c ≤ 25 → c < g.cols →
      (getCellBounds g (labelStr c 1)).map (fun q => q.2.1) = some 0) ∧
    (∀ c : ℕ, c ≤ 25 → c < g.cols →
      (getCellBounds g (labelStr c g.rows)).map (fun q => q.2.2.2)
        = some (g.height : ℤ)) ∧
    (∀ c1 c2 r : ℕ, c1 < c2 → c2 ≤ 25 → c2 < g.cols → 1 ≤ r → r ≤ g.rows →
      ∀ rt1 l2 : ℤ,
        (getCellBounds g (labelStr c1 r)).map (fun q => q.2.2.1) = some rt1 →
        (getCellBounds g (labelStr c2 r)).map (fun q => q.1) = some l2 →
        rt1 ≤ l2) ∧
    (∀ c r1 r2 : ℕ, c ≤ 25 → c < g.cols → 1 ≤ r1 → r1 < r2 → r2 ≤ g.rows →
      ∀ b1 t2 : ℤ,
        (getCellBounds g (labelStr c r1)).map (fun q => q.2.2.2) = some b1 →
        (getCellBounds g (labelStr c r2)).map (fun q => q.2.1) = some t2 →
        b1 ≤ t2) := by
  have hcw0 := cellWidth_nonneg g
  have hch0 := cellHeight_nonneg g
  refine ⟨?_, ?_, ?_, ?_, ?_, ?_, ?_, ?_⟩
  · intro c r h25 hc hr1 hrR
    rw [getCellBounds_label (by omega) (by omega),
      getCellBounds_label h25 hc]
    simp only [Option.map_some']
    push_cast
    rfl
  · intro c r h25 hc hr1 hrR
    rw [getCellBounds_label h25 hc, getCellBounds_label h25 hc]
    simp only [Option.map_some']
    push_cast
    ring_nf
  · intro r hr1 hrR
    rw [getCellBounds_label (by omega) (by omega)]
    simp only [Option.map_some', Option.some.injEq]
    rw [Nat.cast_zero, zero_mul, ratTrunc_of_nonneg le_rfl, Int.floor_zero]
  · intro r h25 hr1 hrR
    rw [getCellBounds_label h25 (by omega)]
    simp only [Option.map_some', Option.some.injEq]
    have e : (((g.cols - 1 : ℕ) : ℚ) + 1) * g.cellWidth = (g.width : ℚ) := by
      rw [Nat.cast_sub hC]
      push_cast
      rw [GridSpec.cellWidth]
      field_simp
    rw [e, ratTrunc_of_nonneg (Nat.cast_nonneg _), Int.floor_natCast]
  · intro c h25 hc
    rw [getCellBounds_label h25 hc]
    simp only [Option.map_some', Option.some.injEq]
    have e : (((1 : ℕ) : ℚ) - 1) * g.cellHeight = 0 := by norm_num
    rw [e, ratTrunc_of_nonneg le_rfl, Int.floor_zero]
  · intro c h25 hc
    rw [getCellBounds_label h25 hc]
    simp only [Option.map_some', Option.some.injEq]
    have e : ((g.rows : ℕ) : ℚ) * g.cellHeight = (g.height : ℚ) := by
      rw [GridSpec.cellHeight]
      field_simp
    rw [e, ratTrunc_of_nonneg (Nat.cast_nonneg _), Int.floor_natCast]
  · intro c1 c2 r hlt h25 hc hr1 hrR rt1 l2 h1 h2
    rw [getCellBounds_label (by omega) (by omega)] at h1
    rw [getCellBounds_label h25 hc] at h2
    simp only [Option.map_some', Option.some.injEq] at h1 h2
    subst h1; subst h2
    rw [ratTrunc_of_nonneg (by positivity), ratTrunc_of_nonneg (by positivity)]
    apply Int.floor_le_floor
    have : ((c1 : ℚ) + 1) ≤ (c2 : ℚ) := by exact_mod_cast hlt
    exact mul_le_mul_of_nonneg_right this hcw0
  · intro c r1 r2 h25 hc hr1 hlt hrR b1 t2 h1 h2
    rw [getCellBounds_label h25 hc] at h1
    rw [getCellBounds_label h25 hc] at h2
    simp only [Option.map_some', Option.some.injEq] at h1 h2
    subst h1; subst h2
    have hr1q : (1 : ℚ) ≤ (r1 : ℚ) := by exact_mod_cast hr1
    have hr2q : (1 : ℚ) ≤ (r2 : ℚ) - 1 := by
      have h2 : (2 : ℕ) ≤ r2 := by omega
      have h2q : (2 : ℚ) ≤ (r2 : ℚ) := by exact_mod_cast h2
      linarith
    rw [ratTrunc_of_nonneg (by nlinarith), ratTrunc_of_nonneg (by nlinarith)]
    apply Int.floor_le_floor
    have : (r1 : ℚ) ≤ (r2 : ℚ) - 1 := by
      have : (r1 : ℚ) + 1 ≤ (r2 : ℚ) := by exact_mod_cast hlt
      linarith
    exact mul_le_mul_of_nonneg_right this hch0

theorem c8_witness :
    1 ≤ spec10.cols ∧ 1 ≤ spec10.rows ∧
    (getCellBounds spec10 (labelStr 2 3)).map (fun q => q.2.2.1)
      = (getCellBounds spec10 (labelStr 3 3)).map (fun q => q.1) :=
  ⟨by decide, by decide,
    (c8_thm spec10 (by decide) (by decide)).1 2 3 (by decide) (by decide)
      (by decide) (by decide)⟩

theorem ratTrunc_eq_intCast {q : ℚ} {z : ℤ} (h0 : 0 ≤ q) (h : q = (z : ℚ)) :
    ratTrunc q = z := by
  rw [ratTrunc_of_nonneg h0, h, Int.floor_intCast]

/-- C2 (amended): `get_cell_bounds` does fail for an invalid column
letter and for a non-numeric row, but it performs no row range check:
every syntactically well-formed label with a positive row — including
rows beyond R — yields a rectangle. -/
theorem c2_thm (g : GridSpec) :
    (∀ s : String, ∀ ch rest, pyUpper (pyStrip s.data) = ch :: rest →
        ch ∉ g.colLetters → getCellBounds g s = none) ∧
    (∀ s : String, ∀ ch rest, pyUpper (pyStrip s.data) = ch :: rest →
        pyInt rest = none → getCellBounds g s = none) ∧
    (∀ c r : ℕ, c ≤ 25 → c < g.cols → 1 ≤ r →
        (getCellBounds g (labelStr c r)).isSome = true) := by
  refine ⟨?_, ?_, ?_⟩
  · intro s ch rest hproc hnot
    rw [getCellBounds, hproc]
    cases hpi : pyInt rest <;> simp [hpi, hnot]
  · intro s ch rest hproc hpi
    rw [getCellBounds, hproc]
    simp [hpi]
  · intro c r h25 hc hr1
    rw [getCellBounds_label h25 hc]
    rfl

/-- C2 counterexample: on the default 10×20 grid, the label "A21" has
row 21 outside [1, 20], yet `get_cell_bounds` returns the off-screen
rectangle (0, 2400, 108, 2520) instead of failing. -/
theorem c2_counterexample :
    getCellBounds spec10 "A21" = some (0, 2400, 108, 2520) ∧
    spec10.rows = 20 ∧ ¬(21 : ℕ) ≤ spec10.rows := by
  refine ⟨?_, rfl, by decide⟩
  have e : labelStr 0 21 = "A21" := by decide
  rw [← e, getCellBounds_label (by norm_num) (by decide),
    spec10_cellWidth, spec10_cellHeight]
  rw [ratTrunc_eq_intCast (by norm_num) (by norm_num : ((0 : ℕ) : ℚ) * 108 = ((0 : ℤ) : ℚ))]
  rw [ratTrunc_eq_intCast (by norm_num)
    (by norm_num : (((21 : ℕ) : ℚ) - 1) * 120 = ((2400 : ℤ) : ℚ))]
  rw [ratTrunc_eq_intCast (by norm_num)
    (by norm_num : (((0 : ℕ) : ℚ) + 1) * 108 = ((108 : ℤ) : ℚ))]
  rw [ratTrunc_eq_intCast (by norm_num)
    (by norm_num : ((21 : ℕ) : ℚ) * 120 = ((2520 : ℤ) : ℚ))]

theorem c2_witness :
    (getCellBounds spec10 (labelStr 0 21)).isSome = true ∧
    pyUpper (pyStrip ("K5" : String).data) = 'K' :: ['5'] ∧
    'K' ∉ spec10.colLetters ∧ getCellBounds spec10 "K5" = none ∧
    pyUpper (pyStrip ("Exx" : String).data) = 'E' :: ['X', 'X'] ∧
    pyInt ['X', 'X'] = none ∧ getCellBounds spec10 "Exx" = none :=
  ⟨(c2_thm spec10).2.2 0 21 (by norm_num) (by decide) (by norm_num),
   by decide, by decide,
   (c2_thm spec10).1 "K5" 'K' ['5'] (by decide) (by decide),
   by decide, by decide,
   (c2_thm spec10).2.1 "Exx" 'E' ['X', 'X'] (by decide) (by decide)⟩

/-- C10: a CLICK response with an empty grid string passes
`_parse_response` unchanged (only presence of the `grid` key is
checked); the failure surfaces only at execution time, where
`grid_to_pixel` rejects the empty label because it is shorter than two
characters — for every grid configuration. -/
theorem c10_thm :
    parseResponse (some { action := some "CLICK", grid := some "" })
      = .ok { action := some "CLICK", grid := some "" } ∧
    (∀ g : GridSpec, gridToPixel g "" = .error .invalidFormat) := by
  constructor
  · rfl
  · intro g
    rfl

/-- C4: response validation: a parse failure, an unrecognized action
tag, a CLICK without `grid`, a TYPE/SCROLL/AWAKE without `value`, and a
SCROLL whose value is neither "up" nor "down" are rejected with
distinct errors; every response with a recognized tag satisfying these
field requirements is accepted and returned unchanged. -/
theorem c4_thm :
    parseResponse none = .error .malformedResponse ∧
    (∀ (a : ActionDict) (t : String), a.action = some t → t ∉ actionTypes →
      parseResponse (some a) = .error .unknownActionType) ∧
    (∀ a : ActionDict, a.action = some "CLICK" → a.grid = none →
      parseResponse (some a) = .error .missingGrid) ∧
    (∀ (a : ActionDict) (t : String), a.action = some t →
      (t = "TYPE" ∨ t = "SCROLL" ∨ t = "AWAKE") → a.value = none →
      parseResponse (some a) = .error .missingValue) ∧
    (∀ (a : ActionDict) (v : String), a.action = some "SCROLL" →
      a.value = some v → v ≠ "up" → v ≠ "down" →
      parseResponse (some a) = .error .invalidScrollDirection) ∧
    (∀ (a : ActionDict) (t : String), a.action = some t → t ∈ actionTypes →
      (t = "CLICK" → a.grid ≠ none) →
      ((t = "TYPE" ∨ t = "SCROLL" ∨ t = "AWAKE") → a.value ≠ none) →
      (t = "SCROLL" → a.value = some "up" ∨ a.value = some "down") →
      parseResponse (some a) = .ok a) := by
  refine ⟨rfl, ?_, ?_, ?_, ?_, ?_⟩
  · intro a t ha ht
    rw [parseResponse, ha]
    simp [ht]
  · intro a ha hg
    rw [parseResponse, ha]
    simp [actionTypes, hg]
  · intro a t ha ht hv
    rw [parseResponse, ha]
    have hne : t ≠ "CLICK" := by
      rcases ht with h | h | h <;> subst h <;> decide
    have hmem : t ∈ actionTypes := by
      rcases ht with h | h | h <;> subst h <;> decide
    simp [hmem, hne, ht, hv]
  · intro a v ha hv hup hdown
    rw [parseResponse, ha]
    have hvn : a.value ≠ none := by rw [hv]; exact Option.some_ne_none v
    have h1 : a.value ≠ some "up" := by
      rw [hv]; simp [hup]
    have h2 : a.value ≠ some "down" := by
      rw [hv]; simp [hdown]
    simp [actionTypes, hvn, h1, h2]
  · intro a t ha hmem hgrid hval hscroll
    rw [parseResponse, ha]
    by_cases hclick : t = "CLICK"
    · simp [hmem, hclick, hgrid hclick, actionTypes]
    · by_cases htsa : t = "TYPE" ∨ t = "SCROLL" ∨ t = "AWAKE"
      · have hvn := hval htsa
        by_cases hs : t = "SCROLL"
        · rcases hscroll hs with h | h <;>
            simp [hmem, hclick, htsa, hvn, hs, h, actionTypes]
        · rcases htsa with h | h | h
          · simp [hmem, hclick, hvn, hs, h, actionTypes]
          · exact absurd h hs
          · simp [hmem, hclick, hvn, hs, h, actionTypes]
      · have hfive : t = "CLICK" ∨ t = "TYPE" ∨ t = "SCROLL" ∨ t = "AWAKE"
            ∨ t = "COMPLETE" := by simpa [actionTypes] using hmem
        have hcomp : t = "COMPLETE" := by
          rcases hfive with h | h | h | h | h
          · exact absurd h hclick
          · exact absurd (Or.inl h) htsa
          · exact absurd (Or.inr (Or.inl h)) htsa
          · exact absurd (Or.inr (Or.inr h)) htsa
          · exact h
        simp [hcomp, actionTypes]

theorem c4_witness :
    parseResponse (some { action := some "SCROLL", value := some "left" })
      = .error .invalidScrollDirection ∧
    parseResponse (some { action := some "CLICK" }) = .error .missingGrid ∧
    parseResponse (some { action := some "TAP" }) = .error .unknownActionType ∧
    parseResponse (some { action := some "TYPE" }) = .error .missingValue ∧
    parseResponse (some { action := some "COMPLETE", explain := some "done" })
      = .ok { action := some "COMPLETE", explain := some "done" } :=
  ⟨c4_thm.2.2.2.2.1 _ "left" rfl rfl (by decide) (by decide),
   c4_thm.2.2.1 _ rfl rfl,
   c4_thm.2.1 _ "TAP" rfl (by decide),
   c4_thm.2.2.2.1 _ "TYPE" rfl (by decide) rfl,
   c4_thm.2.2.2.2.2 _ "COMPLETE" rfl (by decide) (by decide) (by decide) (by decide)⟩

theorem runLoop_length (oracle : ℕ → Option ActionDict) :
    ∀ (fuel step : ℕ) (hist : List ActionDict),
      (runLoop oracle fuel step hist).1.length ≤ hist.length + fuel := by
  intro fuel
  induction fuel with
  | zero => intro step hist; simp [runLoop]
  | succ k ih =>
    intro step hist
    rw [runLoop]
    cases oracle step with
    | none => simp
    | some a =>
      by_cases hca : isCOMPLETE a = true
      · simp [hca]
      · simp only [hca]
        simp only [Bool.false_eq_true, if_false]
        calc (runLoop oracle k (step + 1) (hist ++ [a])).1.length
            ≤ (hist ++ [a]).length + k := ih (step + 1) (hist ++ [a])
          _ = hist.length + (k + 1) := by simp; omega

theorem runLoop_steps (oracle : ℕ → Option ActionDict) :
    ∀ (fuel step : ℕ) (hist : List ActionDict), 1 ≤ step →
      (runLoop oracle fuel step hist).2 ≤ step - 1 + fuel := by
  intro fuel
  induction fuel with
  | zero => intro step hist h1; simp [runLoop]
  | succ k ih =>
    intro step hist h1
    rw [runLoop]
    cases oracle step with
    | none => simp; omega
    | some a =>
      by_cases hca : isCOMPLETE a = true
      · simp [hca]
        omega
      · simp only [hca, Bool.false_eq_true, if_false]
        calc (runLoop oracle k (step + 1) (hist ++ [a])).2
            ≤ (step + 1) - 1 + k := ih (step + 1) (hist ++ [a]) (by omega)
          _ ≤ step - 1 + (k + 1) := by omega

theorem runLoop_mem (oracle : ℕ → Option ActionDict) :
    ∀ (fuel step : ℕ) (hist : List ActionDict),
      ∀ a ∈ (runLoop oracle fuel step hist).1,
        a ∈ hist ∨ ∃ n, oracle n = some a := by
  intro fuel
  induction fuel with
  | zero => intro step hist a ha; exact Or.inl ha
  | succ k ih =>
    intro step hist a ha
    rw [runLoop] at ha
    cases horacle : oracle step with
    | none =>
      rw [horacle] at ha
      exact Or.inl ha
    | some b =>
      rw [horacle] at ha
      by_cases hcb : isCOMPLETE b = true
      · simp [hcb] at ha
        rcases ha with h | h
        · exact Or.inl h
        · right
          refine ⟨step, ?_⟩
          rw [horacle, h]
      · simp only [hcb, Bool.false_eq_true, if_false] at ha
        rcases ih (step + 1) (hist ++ [b]) a ha with h | h
        · rcases List.mem_append.mp h with h2 | h2
          · exact Or.inl h2
          · right
            refine ⟨step, ?_⟩
            rw [horacle, List.mem_singleton.mp h2]
        · exact Or.inr h


/-- C5: a run executes at most `maxSteps` steps (both the step counter
and the history are bounded by `maxSteps`), and the success flag is
true exactly when the history is non-empty and its last entry is a
COMPLETE action; in particular a run whose oracle never produces
COMPLETE ends with `success = false`, and a run whose last recorded
entry is COMPLETE ends with `success = true`. -/
theorem c5_thm (oracle : ℕ → Option ActionDict) (maxSteps : ℕ) :
    (runTask oracle maxSteps).history.length ≤ maxSteps ∧
    (runTask oracle maxSteps).steps ≤ maxSteps ∧
    ((runTask oracle maxSteps).success = true ↔
      (runTask oracle maxSteps).history ≠ [] ∧
      ∃ a, (runTask oracle maxSteps).history.getLast? = some a ∧
        isCOMPLETE a = true) ∧
    ((∀ n a, oracle n = some a → isCOMPLETE a = false) →
      (runTask oracle maxSteps).success = false) := by
  refine ⟨?_, ?_, ?_, ?_⟩
  · have h := runLoop_length oracle maxSteps 1 []
    simpa [runTask] using h
  · have h := runLoop_steps oracle maxSteps 1 [] le_rfl
    simpa [runTask] using h
  · rw [runTask]
    cases hlast : (runLoop oracle maxSteps 1 []).1.getLast? with
    | none =>
      rw [List.getLast?_eq_none_iff] at hlast
      simp [hlast]
    | some a =>
      have hne : (runLoop oracle maxSteps 1 []).1 ≠ [] := by
        intro h
        rw [h] at hlast
        exact absurd hlast (by simp)
      simp only [hlast]
      constructor
      · intro h
        refine ⟨hne, a, rfl, ?_⟩
        have := of_decide_eq_true (by
          simpa [List.isEmpty_iff, hne] using h)
        exact this
      · rintro ⟨h1, b, hb, hcb⟩
        rw [Option.some.injEq] at hb
        subst hb
        simp [List.isEmpty_iff, hne, hcb]
  · intro hnever
    rw [runTask]
    cases hlast : (runLoop oracle maxSteps 1 []).1.getLast? with
    | none => simp [hlast]
    | some a =>
      have hmem : a ∈ (runLoop oracle maxSteps 1 []).1 :=
        List.mem_of_getLast?_eq_some hlast
      rcases runLoop_mem oracle maxSteps 1 [] a hmem with h | ⟨n, hn⟩
      · exact absurd h (List.not_mem_nil a)
      · simp [hlast, hnever n a hn]

theorem c5_witness :
    (runTask (fun _ => some { action := some "SCROLL", value := some "down" }) 3).success
      = false ∧
    (runTask (fun _ => some { action := some "SCROLL", value := some "down" }) 3).steps
      ≤ 3 :=
  ⟨(c5_thm (fun _ => some { action := some "SCROLL", value := some "down" }) 3).2.2.2
      (fun n a ha => by
        rw [Option.some.injEq] at ha
        subst ha
        decide),
   (c5_thm (fun _ => some { action := some "SCROLL", value := some "down" }) 3).2.1⟩

theorem takeLast_append_eq (pre suf : List ActionDict) (n : ℕ) (h : suf.length = n) :
    takeLast (pre ++ suf) n = suf := by
  unfold takeLast
  have hl : (pre ++ suf).length - n = pre.length := by
    rw [List.length_append, ← h]
    omega
  rw [hl, List.drop_left]

theorem stuckWarnings_repeated (pre : List ActionDict) (a b : ActionDict) (g : String)
    (ha : a.action = some "CLICK") (hb : b.action = some "CLICK")
    (hag : a.grid = some g) (hbg : b.grid = some g) (hg : g ≠ "") :
    ∃ w2, stuckWarnings (pre ++ [a, b]) = warnRepeatedClick g ++ w2 := by
  have hlen : 2 ≤ (pre ++ [a, b]).length := by simp
  have htake2 : takeLast (pre ++ [a, b]) 2 = [a, b] := takeLast_append_eq pre [a, b] 2 rfl
  rw [stuckWarnings, if_pos hlen, htake2]
  have hall : [a, b].all (fun x => decide (x.action = some "CLICK")) = true := by
    simp [ha, hb]
  have hset : setSize1 ([a, b].map (fun x => x.grid.getD "")) = true := by
    simp [setSize1, hag, hbg]
  have hhead : ([a, b].map (fun x => x.grid.getD "")).headD "" = g := by
    simp [hag]
  have hd : decide (g ≠ "") = true := decide_eq_true hg
  simp only [hall, hset, hhead, hd, Bool.and_self, if_true]
  exact ⟨_, rfl⟩

theorem stuckWarnings_explains (pre : List ActionDict) (a b c : ActionDict) (e : String)
    (hae : a.explain = some e) (hbe : b.explain = some e) (hce : c.explain = some e) :
    ∃ w1, stuckWarnings (pre ++ [a, b, c]) = w1 ++ warnStuck := by
  have hlen : 2 ≤ (pre ++ [a, b, c]).length := by simp
  have hlen3 : 3 ≤ (pre ++ [a, b, c]).length := by simp
  have htake3 : takeLast (pre ++ [a, b, c]) 3 = [a, b, c] :=
    takeLast_append_eq pre [a, b, c] 3 rfl
  rw [stuckWarnings, if_pos hlen]
  have hset : setSize1 ([a, b, c].map (fun x => x.explain.getD "")) = true := by
    simp [setSize1, hae, hbe, hce]
  simp only [if_pos hlen3, htake3, hset, if_true]
  exact ⟨_, rfl⟩

theorem buildUserMessage_cons (task : String) (hist : List ActionDict)
    (h : hist ≠ []) :
    buildUserMessage task hist
      = ("**User Goal:** " ++ task ++ "\n\n")
        ++ ("**Previous Actions:**\n" ++ histLines hist ++ "\n" ++ stuckWarnings hist)
        ++ "**What is the next action?** (Output JSON only)" := by
  rw [buildUserMessage, if_pos (List.length_pos.mpr h)]

/-- C6: stuck detection: when the last two history entries are CLICK
actions on the identical (non-empty) grid label, the built request
context contains the repeated-click warning; when the last three
entries share an identical explain string, it contains the second,
stronger warning suggesting a recovery action. -/
theorem c6_thm :
    (∀ (task : String) (pre : List ActionDict) (a b : ActionDict) (g : String),
      a.action = some "CLICK" → b.action = some "CLICK" →
      a.grid = some g → b.grid = some g → g ≠ "" →
      containsStr (buildUserMessage task (pre ++ [a, b])) (warnRepeatedClick g)) ∧
    (∀ (task : String) (pre : List ActionDict) (a b c : ActionDict) (e : String),
      a.explain = some e → b.explain = some e → c.explain = some e →
      containsStr (buildUserMessage task (pre ++ [a, b, c])) warnStuck) := by
  constructor
  · intro task pre a b g ha hb hag hbg hg
    obtain ⟨w2, hsplit⟩ := stuckWarnings_repeated pre a b g ha hb hag hbg hg
    refine ⟨("**User Goal:** " ++ task ++ "\n\n")
      ++ ("**Previous Actions:**\n" ++ histLines (pre ++ [a, b]) ++ "\n"),
      w2 ++ "**What is the next action?** (Output JSON only)", ?_⟩
    rw [buildUserMessage_cons task _ (by simp), hsplit]
    simp only [String.append_assoc]
  · intro task pre a b c e hae hbe hce
    obtain ⟨w1, hsplit⟩ := stuckWarnings_explains pre a b c e hae hbe hce
    refine ⟨("**User Goal:** " ++ task ++ "\n\n")
      ++ ("**Previous Actions:**\n" ++ histLines (pre ++ [a, b, c]) ++ "\n" ++ w1),
      "**What is the next action?** (Output JSON only)", ?_⟩
    rw [buildUserMessage_cons task _ (by simp), hsplit]
    simp only [String.append_assoc]

theorem c6_witness :
    containsStr
      (buildUserMessage "order coffee"
        [{ action := some "CLICK", grid := some "E5" },
         { action := some "CLICK", grid := some "E5" }])
      (warnRepeatedClick "E5") ∧
    containsStr
      (buildUserMessage "order coffee"
        [{ action := some "SCROLL", value := some "down", explain := some "scrolling" },
         { action := some "SCROLL", value := some "down", explain := some "scrolling" },
         { action := some "SCROLL", value := some "down", explain := some "scrolling" }])
      warnStuck :=
  ⟨c6_thm.1 "order coffee" [] _ _ "E5" rfl rfl rfl rfl (by decide),
   c6_thm.2 "order coffee" [] _ _ _ "scrolling" rfl rfl rfl⟩

end LightGUI
namespace LightGUI

theorem takeLast_takeLast (l : List ActionDict) {m n : ℕ} (h : n ≤ m) :
    takeLast (takeLast l m) n = takeLast l n := by
  unfold takeLast
  rw [List.drop_drop, List.length_drop]
  congr 1
  omega

theorem takeLast_length (l : List ActionDict) (n : ℕ) :
    (takeLast l n).length = min n l.length := by
  unfold takeLast
  rw [List.length_drop]
  omega

theorem stuckWarnings_takeLast (hist : List ActionDict) :
    stuckWarnings (takeLast hist 5) = stuckWarnings hist := by
  rw [stuckWarnings, stuckWarnings]
  have hlen := takeLast_length hist 5
  have h2 : 2 ≤ (takeLast hist 5).length ↔ 2 ≤ hist.length := by omega
  have h3 : 3 ≤ (takeLast hist 5).length ↔ 3 ≤ hist.length := by omega
  by_cases hc2 : 2 ≤ hist.length
  · rw [if_pos (h2.mpr hc2), if_pos hc2]
    rw [takeLast_takeLast hist (by norm_num : (2 : ℕ) ≤ 5)]
    by_cases hc3 : 3 ≤ hist.length
    · rw [if_pos (h3.mpr hc3), if_pos hc3,
        takeLast_takeLast hist (by norm_num : (3 : ℕ) ≤ 5)]
    · rw [if_neg (fun h => hc3 (h3.mp h)), if_neg hc3]
  · rw [if_neg (fun h => hc2 (h2.mp h)), if_neg hc2]

/-- C9: (a) the images included in the decision request content are
exactly the current screenshot and — when the most recent history
entry carries one — that entry's marked screenshot, never any other
step's image; (b) the textual context depends only on the trailing
window of (at most) the last 5 history entries; (c) those entries are
summarized in their original order, numbered from 1. -/
theorem c9_thm :
    (∀ (task shot : String) (hist : List ActionDict) (img : String),
      ContentBlock.image img ∈ buildContent task shot hist ↔
        (img = shot ∨ ∃ last, hist.getLast? = some last ∧
          last.markedScreenshotB64 = some img)) ∧
    (∀ (task : String) (hist : List ActionDict),
      buildUserMessage task hist = buildUserMessage task (takeLast hist 5)) ∧
    (∀ (rest : List ActionDict) (e1 e2 e3 e4 e5 : ActionDict),
      histLines (rest ++ [e1, e2, e3, e4, e5])
        = fmtHistLine 1 e1 ++ fmtHistLine 2 e2 ++ fmtHistLine 3 e3
          ++ fmtHistLine 4 e4 ++ fmtHistLine 5 e5) := by
  refine ⟨?_, ?_, ?_⟩
  · intro task shot hist img
    rw [buildContent]
    cases hlast : hist.getLast? with
    | none => simp
    | some last =>
      cases hmk : last.markedScreenshotB64 with
      | none => simp [hmk]
      | some m =>
        simp only [hmk, List.mem_append, List.mem_cons, List.mem_singleton,
          List.not_mem_nil, or_false, Option.some.injEq]
        constructor
        · rintro ((h | h) | (h | h))
          · right
            refine ⟨last, rfl, ?_⟩
            rw [hmk]
            exact congrArg some ((ContentBlock.image.injEq _ _).mp h).symm
          · exact absurd h (by simp)
          · exact Or.inl ((ContentBlock.image.injEq _ _).mp h)
          · exact absurd h (by simp)
        · rintro (h | ⟨l2, hl2, hm2⟩)
          · right
            left
            rw [h]
          · left
            left
            subst hl2
            rw [hmk] at hm2
            have h3 : m = img := Option.some.inj hm2
            rw [h3]
  · intro task hist
    rw [buildUserMessage, buildUserMessage]
    have hlen := takeLast_length hist 5
    by_cases h0 : 0 < hist.length
    · rw [if_pos h0, if_pos (by omega)]
      rw [histLines, histLines, takeLast_takeLast hist (by norm_num : (5 : ℕ) ≤ 5),
        stuckWarnings_takeLast]
    · rw [if_neg h0, if_neg (by omega)]
  · intro rest e1 e2 e3 e4 e5
    rw [histLines, takeLast_append_eq rest [e1, e2, e3, e4, e5] 5 rfl]
    rfl

end LightGUI
